import Mathlib

/-!
Shallow embedding of the palette generator and manager
(`src/components/color-card.vue`, `src/views/PaletteLibraryView.vue`).

All string manipulation is modelled on `List Char` (the `data` of a
`String`), so that every parsing function is executable and its behaviour
on concrete inputs can be settled by `decide` or `rfl`.  Functions keep
the names of the TypeScript functions they embed.  JavaScript semantics
(`parseInt` with radix 16, `String.prototype.replace` replacing only the
first occurrence, `padStart`, `Number.prototype.toString(16)`) are
modelled explicitly where the source relies on them.
-/

namespace PaletteApp

/-- JavaScript whitespace characters recognised by `parseInt` and by the
`\s` regex class (ASCII portion; the source never feeds other code points
into these positions). -/
def isWsChar (c : Char) : Bool :=
  c = ' ' || c = '\t' || c = '\n' || c = '\r' || c = '\x0b' || c = '\x0c'

/-- Value of a hexadecimal digit as recognised by JavaScript
`parseInt(s, 16)`: `0-9`, `a-f`, `A-F`. -/
def hexDigitValue (c : Char) : Option ℕ :=
  let n := c.toNat
  if 48 ≤ n ∧ n ≤ 57 then some (n - 48)
  else if 97 ≤ n ∧ n ≤ 102 then some (n - 87)
  else if 65 ≤ n ∧ n ≤ 70 then some (n - 55)
  else none

/-- A character is a hexadecimal digit iff `parseInt(·, 16)` accepts it. -/
def isHexDigit (c : Char) : Bool := (hexDigitValue c).isSome

/-- Numeric value of a run of hex digits (most significant first). -/
def hexVal (ds : List Char) : ℕ :=
  ds.foldl (fun acc c => 16 * acc + ((hexDigitValue c).getD 0)) 0

/-- ECMAScript `parseInt(s, 16)`: skip leading whitespace, optional sign,
optional `0x`/`0X` prefix, then the longest prefix of hex digits; `NaN`
(here `none`) when that prefix is empty. -/
def jsParseIntHex (cs : List Char) : Option ℤ :=
  let cs1 := cs.dropWhile isWsChar
  let neg : Bool := cs1.head? = some '-'
  let cs2 :=
    if cs1.head? = some '+' ∨ cs1.head? = some '-' then cs1.tail else cs1
  let cs3 :=
    if cs2.take 2 = ['0', 'x'] ∨ cs2.take 2 = ['0', 'X'] then cs2.drop 2
    else cs2
  let ds := cs3.takeWhile isHexDigit
  if ds.isEmpty then none
  else some ((if neg then -1 else 1) * (hexVal ds : ℤ))

/-- JavaScript `hex.replace("#", "")`: removes only the FIRST occurrence
of `#`, wherever it is. -/
def removeFirstHash : List Char → List Char
  | [] => []
  | c :: t => if c = '#' then t else c :: removeFirstHash t

/-- An `{r, g, b}` triple as produced by the parsers.  Channels live in
`ℤ` because `parseInt` can return negative values on inputs such as
`"-f"`. -/
structure Rgb where
  r : ℤ
  g : ℤ
  b : ℤ
deriving DecidableEq

/-- `parseHexToRgb` from the source: strip the first `#`, require exactly
6 remaining characters, parse the three 2-character slices with
`parseInt(·, 16)`, fail (`null`) if any slice is `NaN`. -/
def parseHexToRgb (hex : String) : Option Rgb :=
  let clean := removeFirstHash hex.data
  if clean.length ≠ 6 then none
  else
    match jsParseIntHex (clean.take 2), jsParseIntHex ((clean.drop 2).take 2),
        jsParseIntHex ((clean.drop 4).take 2) with
    | some r, some g, some b => some ⟨r, g, b⟩
    | _, _, _ => none

/-- Lower-case hex digit for a value `< 16` (as produced by JavaScript
`Number.prototype.toString(16)`). -/
def hexDigitChar (d : ℕ) : Char :=
  if d < 10 then Char.ofNat (48 + d) else Char.ofNat (87 + d)

/-- Structural helper for `toHexDigits`; the first argument is fuel
(always sufficient when it starts at `n`, since `n / 16 < n`). -/
def toHexDigitsAux : ℕ → ℕ → List Char
  | 0, n => [hexDigitChar n]
  | fuel + 1, n =>
    if n < 16 then [hexDigitChar n]
    else toHexDigitsAux fuel (n / 16) ++ [hexDigitChar (n % 16)]

/-- Digits of `n` in base 16, most significant first (lower case),
matching JavaScript `n.toString(16)` for natural `n`. -/
def toHexDigits (n : ℕ) : List Char := toHexDigitsAux n n

/-- JavaScript `i.toString(16)` for an integer (negative values are
rendered with a leading minus sign). -/
def intToHexChars (i : ℤ) : List Char :=
  if i < 0 then '-' :: toHexDigits i.natAbs else toHexDigits i.toNat

/-- JavaScript `s.padStart(2, "0")`. -/
def padStart2 (cs : List Char) : List Char :=
  if cs.length ≥ 2 then cs else List.replicate (2 - cs.length) '0' ++ cs

/-- `rgbToHex` from the source: each channel rendered with
`toString(16).padStart(2, "0")` and concatenated. -/
def rgbToHex (r g b : ℤ) : String :=
  ⟨padStart2 (intToHexChars r) ++ padStart2 (intToHexChars g) ++
    padStart2 (intToHexChars b)⟩

/-- Validity predicate used by the round-trip claim: a 6-character string
of hexadecimal digits (no marker). -/
def isValidHex6 (s : String) : Bool :=
  s.data.length = 6 && s.data.all isHexDigit

/-! ### WCAG color math (`srgbChannelToLinear`, `getRelativeLuminance`,
`getContrastRatio`, `isAaaContrastWithWhite`)

The source computes with JavaScript floating point; the embedding uses
exact real arithmetic (`Real.rpow` for `Math.pow(·, 2.4)`). -/

/-- `AAA_CONTRAST_RATIO` from the source. -/
def AAA_CONTRAST_RATIO : ℝ := 7

/-- `srgbChannelToLinear`: channel in 0–255 to linear value. -/
noncomputable def srgbChannelToLinear (channel : ℝ) : ℝ :=
  let c := channel / 255
  if c ≤ 0.03928 then c / 12.92 else ((c + 0.055) / 1.055) ^ (2.4 : ℝ)

/-- `getRelativeLuminance` (WCAG). -/
noncomputable def getRelativeLuminance (r g b : ℝ) : ℝ :=
  0.2126 * srgbChannelToLinear r + 0.7152 * srgbChannelToLinear g +
    0.0722 * srgbChannelToLinear b

/-- `getContrastRatio` of two relative luminances. -/
noncomputable def getContrastRatio (l1 l2 : ℝ) : ℝ :=
  (max l1 l2 + 0.05) / (min l1 l2 + 0.05)

/-- `isAaaContrastWithWhite`: the background `(r, g, b)` has contrast at
least 7 against white text (white has luminance 1). -/
def isAaaContrastWithWhite (r g b : ℤ) : Prop :=
  getContrastRatio 1 (getRelativeLuminance r g b) ≥ AAA_CONTRAST_RATIO

/-! ### Constrained random color generator

`Math.random()` is modelled as an infinite stream `σ : ℕ → ℝ` of values
in `[0, 1)`, consumed left to right; `getRandomInt(0, 120)` consumes one
stream element.  The source's `while (true)` rejection loop is modelled
with the first accepting index of the stream (the code diverges when no
such index exists; every theorem assumes one does). -/

/-- `getRandomInt(min, max)` applied to one `Math.random()` outcome. -/
noncomputable def getRandomInt (rnd : ℝ) (lo hi : ℕ) : ℤ :=
  ⌊rnd * ((hi : ℝ) - (lo : ℝ) + 1)⌋ + (lo : ℤ)

/-- The candidate triple produced by attempt number `k` of the rejection
loop when the stream is consumed from position `s` (three stream
elements per attempt). -/
noncomputable def candidateTriple (σ : ℕ → ℝ) (s k : ℕ) : Rgb :=
  ⟨getRandomInt (σ (s + 3 * k)) 0 120,
   getRandomInt (σ (s + 3 * k + 1)) 0 120,
   getRandomInt (σ (s + 3 * k + 2)) 0 120⟩

/-- The acceptance test of the rejection loop, on a candidate triple. -/
def aaaTriple (t : Rgb) : Prop := isAaaContrastWithWhite t.r t.g t.b

open Classical in
/-- Index of the first attempt accepted by the rejection loop (0 when no
attempt is ever accepted — in that case the source diverges and the
value is irrelevant). -/
noncomputable def firstAaaIndex (σ : ℕ → ℝ) (s : ℕ) : ℕ :=
  if h : ∃ k, aaaTriple (candidateTriple σ s k) then Nat.find h else 0

/-- `getRandomAaaRgbColor`, reading the random stream from position `s`:
the first candidate triple passing `isAaaContrastWithWhite`. -/
noncomputable def getRandomAaaRgbColor (σ : ℕ → ℝ) (s : ℕ) : Rgb :=
  candidateTriple σ s (firstAaaIndex σ s)

/-- Stream position after one `getRandomAaaRgbColor` call starting at
`s`. -/
noncomputable def nextPos (σ : ℕ → ℝ) (s : ℕ) : ℕ :=
  s + 3 * firstAaaIndex σ s + 3

/-- The two output encodings (`ColorCodeType` in the source). -/
inductive ColorCodeType where
  | HEX : ColorCodeType
  | RGB : ColorCodeType
deriving DecidableEq

/-- Encoding of a generated triple as pushed by
`generateRandomPaletteValues`: `rgbToHex(r, g, b)` for HEX, the template
string `rgb(r, g, b)` for RGB. -/
def encodeColor (t : ColorCodeType) (c : Rgb) : String :=
  match t with
  | .HEX => rgbToHex c.r c.g c.b
  | .RGB => "rgb(" ++ toString c.r ++ ", " ++ toString c.g ++ ", " ++
      toString c.b ++ ")"

/-- `generateRandomPaletteValues(type, length)` reading the random
stream from position `s`. -/
noncomputable def generateRandomPaletteValues (σ : ℕ → ℝ)
    (t : ColorCodeType) : ℕ → ℕ → List String
  | 0, _ => []
  | len + 1, s =>
    encodeColor t (getRandomAaaRgbColor σ s) ::
      generateRandomPaletteValues σ t len (nextPos σ s)

/-! ### Palette engine

The engine is stated over an abstract stream `fresh : ℕ → Rgb` of
accepted triples — `fresh i` is the `i`-th triple returned by
`getRandomAaaRgbColor` during the operation.  `acceptedTriple` below and
`generateRandomPaletteValues_eq_from` connect this abstraction to the
raw random stream: instantiating `fresh` with `acceptedTriple σ` makes
the abstract generator coincide with the concrete one. -/

/-- The values produced by a `generateRandomPaletteValues(type, len)`
call whose rejection loops return the accepted triples
`fresh start, fresh (start+1), …`. -/
def generateRandomPaletteValuesFrom (fresh : ℕ → Rgb) (start : ℕ)
    (t : ColorCodeType) (len : ℕ) : List String :=
  (List.range len).map fun j => encodeColor t (fresh (start + j))

/-- Stream position at which the `i`-th accepted triple is drawn. -/
noncomputable def acceptedPos (σ : ℕ → ℝ) : ℕ → ℕ
  | 0 => 0
  | i + 1 => nextPos σ (acceptedPos σ i)

/-- The `i`-th accepted triple drawn from the raw random stream. -/
noncomputable def acceptedTriple (σ : ℕ → ℝ) (i : ℕ) : Rgb :=
  getRandomAaaRgbColor σ (acceptedPos σ i)

/-- A palette slot (`PaletteColor` in the source). -/
structure PaletteColor where
  value : String
  isPinned : Bool
deriving DecidableEq

/-- Helper: a freshly generated slot is unpinned. -/
def mkUnpinned (v : String) : PaletteColor := ⟨v, false⟩

/-- `ensurePaletteSize`: pad a short palette with freshly generated
unpinned slots, truncate a long one with `slice(0, paletteSize)`.
(The source's `filter((v) => v !== undefined)` never removes anything
and is dropped.) -/
def ensurePaletteSize (fresh : ℕ → Rgb) (format : ColorCodeType)
    (paletteSize : ℕ) (colors : List PaletteColor) : List PaletteColor :=
  if colors.length < paletteSize then
    colors ++
      (generateRandomPaletteValuesFrom fresh 0 format
        (paletteSize - colors.length)).map mkUnpinned
  else if colors.length > paletteSize then colors.take paletteSize
  else colors

/-- The second loop of `generateNewPalette`: walk the existing palette
and push one replacement per unpinned slot, consuming the batch
`newValues` in order; pinned slots neither push nor consume, and once
the batch is exhausted unpinned slots are skipped. -/
def replaceUnpinnedLoop : List PaletteColor → List String → List PaletteColor
  | [], _ => []
  | c :: rest, vs =>
    if c.isPinned then replaceUnpinnedLoop rest vs
    else
      match vs with
      | [] => replaceUnpinnedLoop rest []
      | v :: vs' => mkUnpinned v :: replaceUnpinnedLoop rest vs'

/-- `generateNewPalette` (the Regenerate operation): collect the pinned
slots in order at the front, then one freshly generated unpinned slot
per unpinned slot of the old palette (batch of size
`paletteSize - pinnedCount`), then pad one at a time while shorter than
`paletteSize`, finally `slice(0, paletteSize)`.  The `while` padding
loop keeps consuming the generator after the batch, hence indices
`needed + j`. -/
def generateNewPalette (fresh : ℕ → Rgb) (paletteSize : ℕ)
    (format : ColorCodeType) (colors : List PaletteColor) :
    List PaletteColor :=
  let pinned := colors.filter (·.isPinned)
  let needed := paletteSize - pinned.length
  let newValues := generateRandomPaletteValuesFrom fresh 0 format needed
  let result := pinned ++ replaceUnpinnedLoop colors newValues
  let padding := (List.range (paletteSize - result.length)).map fun j =>
    mkUnpinned (encodeColor format (fresh (needed + j)))
  (result ++ padding).take paletteSize

/-! ### `rgb(r, g, b)` string parsing and the accent-color analyzer -/

/-- Decimal value of a run of ASCII digits (`Number(match[i])`). -/
def digitsVal (ds : List Char) : ℕ :=
  ds.foldl (fun acc c => 10 * acc + (c.toNat - 48)) 0

/-- One `(\d+)` capture group: at least one digit, greedily consumed.
Digits, whitespace and `,`/`)` are disjoint character classes, so greedy
matching without backtracking is exact for this regex. -/
def parseNumGroup (cs : List Char) : Option (ℕ × List Char) :=
  let ds := cs.takeWhile Char.isDigit
  if ds.isEmpty then none else some (digitsVal ds, cs.dropWhile Char.isDigit)

/-- Match `/rgb\s*\((\d+)\s*,\s*(\d+)\s*,\s*(\d+)\s*\)/i` at the head of
the character list (trailing characters are allowed). -/
def matchRgbAt (cs : List Char) : Option (ℕ × ℕ × ℕ) :=
  match cs with
  | c1 :: c2 :: c3 :: rest =>
    if (c1 = 'r' || c1 = 'R') && (c2 = 'g' || c2 = 'G') &&
        (c3 = 'b' || c3 = 'B') then
      match rest.dropWhile isWsChar with
      | '(' :: rest1 =>
        match parseNumGroup rest1 with
        | none => none
        | some (n1, rest2) =>
          match rest2.dropWhile isWsChar with
          | ',' :: rest3 =>
            match parseNumGroup (rest3.dropWhile isWsChar) with
            | none => none
            | some (n2, rest4) =>
              match rest4.dropWhile isWsChar with
              | ',' :: rest5 =>
                match parseNumGroup (rest5.dropWhile isWsChar) with
                | none => none
                | some (n3, rest6) =>
                  match rest6.dropWhile isWsChar with
                  | ')' :: _ => some (n1, n2, n3)
                  | _ => none
              | _ => none
          | _ => none
      | _ => none
    else none
  | _ => none

/-- JavaScript `String.prototype.match`: search for the first position
where the pattern matches. -/
def searchRgb : List Char → Option (ℕ × ℕ × ℕ)
  | [] => none
  | c :: t =>
    match matchRgbAt (c :: t) with
    | some v => some v
    | none => searchRgb t

/-- `rgbStringToHex`: parse `rgb(r, g, b)` and re-encode as hex; the
sentinel `000000` on a non-matching string. -/
def rgbStringToHex (s : String) : String :=
  match searchRgb s.data with
  | none => "000000"
  | some (r, g, b) => rgbToHex r g b

/-- `value.startsWith("rgb")` (case sensitive, as in the source). -/
def startsWithRgb (s : String) : Bool :=
  match s.data with
  | 'r' :: 'g' :: 'b' :: _ => true
  | _ => false

/-- The hex normalization applied to a slot value before analysis:
`c.value.startsWith("rgb") ? rgbStringToHex(c.value) : c.value`. -/
def normalizedHex (v : String) : String :=
  if startsWithRgb v then rgbStringToHex v else v

open Classical in
/-- Body of the `for` loop of the `accentColor` computed property: skip
slots that fail to normalize, otherwise keep the candidate with the
strictly larger ratio (ties keep the earlier candidate). -/
noncomputable def accentStep (midL : ℝ) (best : Option (String × ℝ))
    (c : PaletteColor) : Option (String × ℝ) :=
  let h := normalizedHex c.value
  match parseHexToRgb h with
  | none => best
  | some rgb =>
    let ratio := getContrastRatio midL (getRelativeLuminance rgb.r rgb.g rgb.b)
    match best with
    | none => some ("#" ++ h, ratio)
    | some b => if ratio > b.2 then some ("#" ++ h, ratio) else best

/-- The `accentColor` computed property (`suggestAccent` in the spec):
reference slot at `floor(length / 2)`, then scan all slots for the
maximum contrast ratio against the reference luminance. -/
noncomputable def accentColor (colors : List PaletteColor) :
    Option (String × ℝ) :=
  if colors.length = 0 then none
  else
    match colors.get? (colors.length / 2) with
    | none => none
    | some mid =>
      match parseHexToRgb (normalizedHex mid.value) with
      | none => none
      | some midRgb =>
        colors.foldl
          (accentStep
            (getRelativeLuminance midRgb.r midRgb.g midRgb.b)) none

/-! ### Library manager (`PaletteLibraryView.vue`) -/

/-- A saved library entry (`SavedPaletteItem`). -/
structure SavedPaletteItem where
  id : String
  name : String
  tags : List String
  colors : List String
  favorite : Bool
  createdAt : String
deriving DecidableEq

/-- JavaScript `String.prototype.trim` (ASCII whitespace). -/
def jsTrim (s : String) : String :=
  ⟨((s.data.dropWhile isWsChar).reverse.dropWhile isWsChar).reverse⟩

/-- JavaScript `s.split(",")`. -/
def splitOnComma : List Char → List (List Char)
  | [] => [[]]
  | c :: t =>
    if c = ',' then [] :: splitOnComma t
    else
      match splitOnComma t with
      | [] => [[c]]
      | g :: gs => (c :: g) :: gs

/-- The tag list built by `saveEdit`:
`editTags.split(',').map(t => t.trim()).filter(Boolean)`. -/
def parseTagsInput (s : String) : List String :=
  (((splitOnComma s.data).map fun g => jsTrim ⟨g⟩).filter fun t => t ≠ "")

/-- Replace the first element satisfying `p` (the JS pattern
`items.find(...)` followed by in-place mutation of the found object). -/
def updateFirst (p : SavedPaletteItem → Bool)
    (f : SavedPaletteItem → SavedPaletteItem) :
    List SavedPaletteItem → List SavedPaletteItem
  | [] => []
  | x :: xs => if p x then f x :: xs else x :: updateFirst p f xs

/-- `saveEdit`: no-op when `editingId` is falsy (null or the empty
string) or no entry has that id; otherwise replace the first matching
entry's name (only when the trimmed new name is non-empty) and its tags
(wholesale, via `parseTagsInput`).  The source also resets the editing
UI fields, which carry no palette data and are not modelled. -/
def saveEdit (items : List SavedPaletteItem) (editingId : Option String)
    (editName editTags : String) : List SavedPaletteItem :=
  match editingId with
  | none => items
  | some eid =>
    if eid = "" then items
    else
      match items.find? (fun it => it.id == eid) with
      | none => items
      | some _ =>
        updateFirst (fun it => it.id == eid)
          (fun it =>
            { it with
              name := if jsTrim editName = "" then it.name else jsTrim editName
              tags := parseTagsInput editTags })
          items

/-! ### Engine initialization (the `onMounted` hook) -/

/-- Engine session state (the reactive refs of the generator view). -/
structure EngineState where
  format : ColorCodeType
  paletteSize : ℕ
  colors : List PaletteColor
  isDarkPreview : Bool
deriving DecidableEq

/-- Initial values of the reactive refs (`format = HEX`,
`paletteSize = 5`, `colors = []`, `isDarkPreview = true`). -/
def initialEngineState : EngineState := ⟨.HEX, 5, [], true⟩

/-- Outcome of `JSON.parse` on a non-empty raw handoff value: `failure`
when the JSON does not parse, otherwise the `colors` field (`none` when
absent or not an array). -/
inductive ParsedHandoff where
  | failure : ParsedHandoff
  | payload : Option (List String) → ParsedHandoff
deriving DecidableEq

/-- The raw string stored under the handoff key, classified by the
source's truthiness test `if (activeRaw)` and, in the truthy case, by
the outcome of `JSON.parse`: `emptyString` is the falsy raw value `""`
(the key is present, but the source treats it like an absent key and
never reaches `JSON.parse` — which would throw on `""` anyway);
`nonEmpty ph` is any non-empty raw string together with its parse
outcome. -/
inductive HandoffRaw where
  | emptyString : HandoffRaw
  | nonEmpty : ParsedHandoff → HandoffRaw
deriving DecidableEq

/-- Persisted session state (`SavedPaletteState`), assumed well shaped
when the JSON parses. -/
structure SavedPaletteState where
  colors : List PaletteColor
  format : ColorCodeType
  size : ℕ
  isDarkPreview : Bool
deriving DecidableEq

/-- `loadFromStorage`: outer `none` = key absent (early return), inner
`none` = `JSON.parse` threw (ignored), otherwise all four refs are
overwritten. -/
def loadFromStorage (session : Option (Option SavedPaletteState))
    (st : EngineState) : EngineState :=
  match session with
  | none => st
  | some none => st
  | some (some p) => ⟨p.format, p.size, p.colors, p.isDarkPreview⟩

/-- The `try` block of `onMounted` run on a present handoff value: seed
the palette from the handoff colors when they form a non-empty array
(growing the size if needed, padding with generated colors if short);
otherwise leave the state untouched. -/
def applyHandoff (fresh : ℕ → Rgb) (st : EngineState)
    (ph : ParsedHandoff) : EngineState :=
  match ph with
  | .failure => st
  | .payload none => st
  | .payload (some cs) =>
    if cs.length = 0 then st
    else
      let fromLibrary := cs.map fun hex => PaletteColor.mk hex false
      let size1 :=
        if st.paletteSize < fromLibrary.length then fromLibrary.length
        else st.paletteSize
      if fromLibrary.length < size1 then
        let extra :=
          (generateRandomPaletteValuesFrom fresh 0 st.format
            (size1 - fromLibrary.length)).map mkUnpinned
        { st with paletteSize := size1,
                  colors := (fromLibrary ++ extra).take size1 }
      else
        { st with paletteSize := size1, colors := fromLibrary.take size1 }

/-- The `else` branch of the `onMounted` hook: `loadFromStorage()`,
then generate a brand-new palette when the loaded slot sequence is
empty, otherwise `ensurePaletteSize()`. -/
def loadSessionBranch (fresh : ℕ → Rgb)
    (session : Option (Option SavedPaletteState)) : EngineState :=
  let st := loadFromStorage session initialEngineState
  if st.colors.length = 0 then
    { st with
        colors := (generateRandomPaletteValuesFrom fresh 0 st.format
          st.paletteSize).map mkUnpinned }
  else
    { st with
        colors := ensurePaletteSize fresh st.format st.paletteSize
          st.colors }

/-- The `onMounted` hook of the generator view.  Inputs are the raw
contents of the two storage keys (`handoff = none` when the key is
absent); the result is the engine state after initialization together
with the handoff slot after initialization.  The source guards the
handoff branch with the JavaScript truthiness test `if (activeRaw)`:
only a present key with a NON-EMPTY raw value enters the `try` block
(and its `finally` removes the key); a present key holding the empty
string is falsy, so the `else` branch runs and the key is left in
place. -/
def onMountedColorGenerator (fresh : ℕ → Rgb)
    (handoff : Option HandoffRaw)
    (session : Option (Option SavedPaletteState)) :
    EngineState × Option HandoffRaw :=
  match handoff with
  | some (.nonEmpty ph) => (applyHandoff fresh initialEngineState ph, none)
  | _ => (loadSessionBranch fresh session, handoff)

/-! ### Auxiliary definitions used by the theorems -/

/-- A handoff value that carries no usable colors: unparsable JSON, a
missing (or non-array) `colors` field, or an empty colors array. -/
def badHandoffPayload (ph : ParsedHandoff) : Prop :=
  ph = .failure ∨ ph = .payload none ∨ ph = .payload (some [])

instance : DecidablePred badHandoffPayload := fun ph =>
  inferInstanceAs
    (Decidable (ph = .failure ∨ ph = .payload none ∨ ph = .payload (some [])))

/-- A concrete accepted-triple stream used in witnesses. -/
def freshConst : ℕ → Rgb := fun _ => ⟨1, 2, 3⟩

/-- The palette of the spec's Regenerate scenario:
`[{ff0000, pinned=false}, {00ff00, pinned=true}, {0000ff, pinned=false}]`. -/
def scenarioPalette : List PaletteColor :=
  [⟨"ff0000", false⟩, ⟨"00ff00", true⟩, ⟨"0000ff", false⟩]

/-- Lower-casing of a string, character by character (the sense in which
the hex round-trip is the identity "up to letter case"). -/
def jsToLowerCase (s : String) : String := ⟨s.data.map Char.toLower⟩

/-- The candidate a slot contributes to the accent-color scan: `none`
when the slot fails to normalize, otherwise its displayed value and its
contrast ratio against the reference luminance. -/
noncomputable def candOf (midL : ℝ) (c : PaletteColor) :
    Option (String × ℝ) :=
  (parseHexToRgb (normalizedHex c.value)).map fun rgb =>
    ("#" ++ normalizedHex c.value,
      getContrastRatio midL (getRelativeLuminance rgb.r rgb.g rgb.b))

open Classical in
/-- The accumulator update of the accent-color scan on a successfully
normalized candidate: keep the strictly better ratio, ties keep the
earlier candidate. -/
noncomputable def pickBetter (best : Option (String × ℝ))
    (cand : String × ℝ) : Option (String × ℝ) :=
  match best with
  | none => some cand
  | some b => if cand.2 > b.2 then some cand else best

/-! ## Supporting lemmas -/

theorem generateRandomPaletteValuesFrom_length (fresh : ℕ → Rgb)
    (start : ℕ) (t : ColorCodeType) (len : ℕ) :
    (generateRandomPaletteValuesFrom fresh start t len).length = len := by
  simp [generateRandomPaletteValuesFrom]

theorem mem_generateRandomPaletteValuesFrom {fresh : ℕ → Rgb} {start : ℕ}
    {t : ColorCodeType} {len : ℕ} {v : String}
    (h : v ∈ generateRandomPaletteValuesFrom fresh start t len) :
    ∃ i, v = encodeColor t (fresh i) := by
  simp only [generateRandomPaletteValuesFrom, List.mem_map] at h
  obtain ⟨j, _, hj⟩ := h
  exact ⟨start + j, hj.symm⟩

theorem replaceUnpinnedLoop_nil (cs : List PaletteColor) :
    replaceUnpinnedLoop cs [] = [] := by
  induction cs with
  | nil => rfl
  | cons c rest ih =>
    unfold replaceUnpinnedLoop
    by_cases h : c.isPinned <;> simp [h, ih]

theorem mem_replaceUnpinnedLoop {x : PaletteColor} :
    ∀ {cs : List PaletteColor} {vs : List String},
      x ∈ replaceUnpinnedLoop cs vs → x.isPinned = false ∧ x.value ∈ vs := by
  intro cs
  induction cs with
  | nil => intro vs h; simp [replaceUnpinnedLoop] at h
  | cons c rest ih =>
    intro vs h
    cases vs with
    | nil => rw [replaceUnpinnedLoop_nil] at h; simp at h
    | cons v vs' =>
      by_cases hp : c.isPinned
      · simp only [replaceUnpinnedLoop, hp, if_true] at h
        exact ih h
      · simp only [replaceUnpinnedLoop, hp, if_false, Bool.false_eq_true] at h
        rcases List.mem_cons.mp h with h | h
        · subst h; exact ⟨rfl, List.mem_cons_self _ _⟩
        · obtain ⟨h1, h2⟩ := ih h
          exact ⟨h1, List.mem_cons_of_mem _ h2⟩

/-! ## Claim C9 — when the handoff key is consumed -/

/-- C9, counterexample: a present handoff key holding the empty string
— JSON that fails to parse, since `JSON.parse("")` throws — is falsy
under the source's `if (activeRaw)` test, so the `else` branch runs and
the key is NOT removed: it survives initialization, contradicting
"deleted whenever present, including when its JSON fails to parse". -/
theorem handoff_empty_string_not_removed :
    (onMountedColorGenerator freshConst (some .emptyString)
      (some (some ⟨[⟨"123456", true⟩], .HEX, 5, true⟩))).2 =
      some .emptyString ∧
    (onMountedColorGenerator freshConst (some .emptyString)
      (some (some ⟨[⟨"123456", true⟩], .HEX, 5, true⟩))).2 ≠ none := by
  refine ⟨rfl, ?_⟩
  decide

/-- C9, amended: the handoff key is deleted during initialization
whenever it is present with a non-empty raw value (the truthy case of
the source's `if (activeRaw)` test), whatever the parse outcome —
valid payload, unparsable JSON, or a missing/empty colors array alike —
so a later independent load is never re-seeded by that handoff.  A
present key holding the empty string is falsy: it is not consumed and
not removed. -/
theorem handoff_removed_of_truthy (fresh : ℕ → Rgb) (ph : ParsedHandoff)
    (session : Option (Option SavedPaletteState)) :
    (onMountedColorGenerator fresh (some (.nonEmpty ph)) session).2 =
      none := rfl

/-! ## Claim C10 — a bad handoff and the session it leaves behind -/

/-- C10, counterexample: with the handoff key present holding the empty
string (a payload that fails to parse) and valid persisted session
state, the falsy `if (activeRaw)` check routes to the `else` branch and
the engine DOES fall back to the persisted state — the session starts
with the persisted slots, not with an empty slot sequence. -/
theorem handoff_empty_string_falls_back :
    (onMountedColorGenerator freshConst (some .emptyString)
      (some (some ⟨[⟨"123456", true⟩, ⟨"654321", false⟩,
        ⟨"abcdef", false⟩], .HEX, 3, true⟩))).1.colors =
      [⟨"123456", true⟩, ⟨"654321", false⟩, ⟨"abcdef", false⟩] ∧
    (onMountedColorGenerator freshConst (some .emptyString)
      (some (some ⟨[⟨"123456", true⟩, ⟨"654321", false⟩,
        ⟨"abcdef", false⟩], .HEX, 3, true⟩))).1.colors ≠ [] := by
  refine ⟨by decide, ?_⟩
  decide

/-- C10, amended: when the handoff key is present with a NON-EMPTY raw
value whose payload is unusable (unparsable JSON, missing/non-array
colors, or an empty colors array), the engine neither seeds from the
handoff, nor falls back to the persisted session state, nor generates a
fresh palette: the slot sequence stays empty, whatever valid session
state exists.  When the key holds the empty string — also an
unparsable payload — the falsy check instead routes to the normal load
path and the persisted state IS used (see the counterexample). -/
theorem badHandoff_truthy_empty_colors (fresh : ℕ → Rgb)
    (ph : ParsedHandoff) (session : Option (Option SavedPaletteState))
    (h : badHandoffPayload ph) :
    (onMountedColorGenerator fresh (some (.nonEmpty ph)) session).1.colors =
      [] := by
  rcases h with h | h | h <;> subst h <;> rfl

theorem badHandoff_truthy_empty_colors_witness :
    badHandoffPayload .failure ∧
    (onMountedColorGenerator freshConst (some (.nonEmpty .failure))
      (some (some ⟨[⟨"123456", true⟩], .HEX, 5, true⟩))).1.colors = [] :=
  ⟨Or.inl rfl,
    badHandoff_truthy_empty_colors freshConst .failure
      (some (some ⟨[⟨"123456", true⟩], .HEX, 5, true⟩)) (Or.inl rfl)⟩

/-! ## Claim C4 — Resize always yields exactly the requested length -/

/-- C4: `ensurePaletteSize` (the Resize operation) always produces a
palette of length exactly `n`: a short palette is extended by appending
`n - length` freshly generated unpinned slots at the end, a long one is
truncated from the end regardless of the pin flags of the dropped
slots.  Both behaviours are captured by the single equation below, and
the length is `n` in every case. -/
theorem ensurePaletteSize_spec (fresh : ℕ → Rgb) (format : ColorCodeType)
    (n : ℕ) (cs : List PaletteColor) :
    ensurePaletteSize fresh format n cs =
      (cs ++ (generateRandomPaletteValuesFrom fresh 0 format
        (n - cs.length)).map mkUnpinned).take n ∧
    (ensurePaletteSize fresh format n cs).length = n := by
  have hlen : ((generateRandomPaletteValuesFrom fresh 0 format
      (n - cs.length)).map mkUnpinned).length = n - cs.length := by
    simp [generateRandomPaletteValuesFrom_length]
  unfold ensurePaletteSize
  rcases lt_trichotomy cs.length n with h | h | h
  · have htot : (cs ++ (generateRandomPaletteValuesFrom fresh 0 format
        (n - cs.length)).map mkUnpinned).length = n := by
      simp only [List.length_append, hlen]; omega
    rw [if_pos h, List.take_of_length_le (le_of_eq htot)]
    exact ⟨rfl, htot⟩
  · rw [if_neg (by omega), if_neg (by omega),
      show n - cs.length = 0 by omega]
    simp only [generateRandomPaletteValuesFrom, List.range_zero,
      List.map_nil, List.append_nil]
    rw [List.take_of_length_le (by omega)]
    exact ⟨rfl, h⟩
  · rw [if_neg (by omega), if_pos h, show n - cs.length = 0 by omega]
    simp only [generateRandomPaletteValuesFrom, List.range_zero,
      List.map_nil, List.append_nil]
    refine ⟨trivial, ?_⟩
    rw [List.length_take]
    omega

/-! ## Claims C1 and C3 — the Regenerate operation -/

theorem take_append_structure (P Q : List PaletteColor) (size : ℕ)
    (hle : P.length ≤ size) (hsz : size ≤ (P ++ Q).length) :
    ((P ++ Q).take size).take P.length = P ∧
    ((P ++ Q).take size).length = size ∧
    ((P ++ Q).take size).drop P.length = Q.take (size - P.length) := by
  refine ⟨?_, ?_, ?_⟩
  · rw [List.take_take, min_eq_left hle, List.take_append_eq_append_take,
      Nat.sub_self, List.take_zero, List.append_nil, List.take_length]
  · rw [List.length_take]
    omega
  · rw [List.drop_take, List.drop_left]

theorem take_append_filter_pinned {P Q : List PaletteColor} {size : ℕ}
    (hle : P.length ≤ size) (hQ : ∀ x ∈ Q, x.isPinned = false) :
    ((P ++ Q).take size).filter (·.isPinned) = P.filter (·.isPinned) := by
  rw [List.take_append_eq_append_take, List.take_of_length_le hle,
    List.filter_append]
  have hnil : (Q.take (size - P.length)).filter (·.isPinned) = [] :=
    List.filter_eq_nil_iff.mpr fun a ha => by
      simp [hQ a (List.take_subset _ _ ha)]
  rw [hnil, List.append_nil]

/-- C3: Regenerate preserves the exact value, the pinned flag and the
relative order of all pinned slots (the pinned sub-sequence of the
result equals the pinned sub-sequence of the input); no pinned slot is
dropped or re-valued.  The hypothesis (pinned count at most the
configured size) always holds under the data-model invariant that the
palette length equals the configured size. -/
theorem generateNewPalette_preserves_pinned (fresh : ℕ → Rgb) (size : ℕ)
    (format : ColorCodeType) (colors : List PaletteColor)
    (h : (colors.filter (·.isPinned)).length ≤ size) :
    (generateNewPalette fresh size format colors).filter (·.isPinned) =
      colors.filter (·.isPinned) := by
  simp only [generateNewPalette]
  rw [List.append_assoc]
  rw [take_append_filter_pinned h ?_]
  · exact List.filter_eq_self.mpr fun a ha => (List.mem_filter.mp ha).2
  · intro x hx
    rcases List.mem_append.mp hx with hx | hx
    · exact (mem_replaceUnpinnedLoop hx).1
    · obtain ⟨j, _, hj⟩ := List.mem_map.mp hx
      rw [← hj]
      rfl

theorem generateNewPalette_preserves_pinned_witness :
    (scenarioPalette.filter (·.isPinned)).length ≤ 3 ∧
    (generateNewPalette freshConst 3 .HEX scenarioPalette).filter
        (·.isPinned) = scenarioPalette.filter (·.isPinned) :=
  ⟨by decide,
    generateNewPalette_preserves_pinned freshConst 3 .HEX scenarioPalette
      (by decide)⟩

/-- C1, corrected: Regenerate does NOT keep pinned slots at their
original indices.  It stacks the pinned slots — values, flags and
relative order unchanged — at the FRONT of the result, and every later
position holds a freshly generated unpinned value; the result has
exactly the configured length. -/
theorem generateNewPalette_pinned_at_front (fresh : ℕ → Rgb) (size : ℕ)
    (format : ColorCodeType) (colors : List PaletteColor)
    (h : (colors.filter (·.isPinned)).length ≤ size) :
    (generateNewPalette fresh size format colors).take
        (colors.filter (·.isPinned)).length = colors.filter (·.isPinned) ∧
    (generateNewPalette fresh size format colors).length = size ∧
    ∀ x ∈ (generateNewPalette fresh size format colors).drop
        (colors.filter (·.isPinned)).length,
      x.isPinned = false ∧ ∃ i, x.value = encodeColor format (fresh i) := by
  simp only [generateNewPalette]
  rw [List.append_assoc]
  have hsz : size ≤ (colors.filter (·.isPinned) ++
      (replaceUnpinnedLoop colors (generateRandomPaletteValuesFrom fresh 0
        format (size - (colors.filter (·.isPinned)).length)) ++
       (List.range (size - (colors.filter (·.isPinned) ++
          replaceUnpinnedLoop colors (generateRandomPaletteValuesFrom fresh 0
            format (size - (colors.filter (·.isPinned)).length))).length)).map
         fun j => mkUnpinned (encodeColor format
           (fresh (size - (colors.filter (·.isPinned)).length + j))))).length := by
    simp only [List.length_append, List.length_map, List.length_range]
    omega
  obtain ⟨h1, h2, h3⟩ := take_append_structure _ _ size h hsz
  refine ⟨h1, h2, ?_⟩
  intro x hx
  rw [h3] at hx
  have hx2 := List.take_subset _ _ hx
  rcases List.mem_append.mp hx2 with hx3 | hx3
  · obtain ⟨hpin, hval⟩ := mem_replaceUnpinnedLoop hx3
    obtain ⟨i, hi⟩ := mem_generateRandomPaletteValuesFrom hval
    exact ⟨hpin, i, hi⟩
  · obtain ⟨j, _, hj⟩ := List.mem_map.mp hx3
    exact ⟨by rw [← hj]; rfl,
      size - (colors.filter (·.isPinned)).length + j, by rw [← hj]; rfl⟩

theorem generateNewPalette_pinned_at_front_witness :
    (scenarioPalette.filter (·.isPinned)).length ≤ 3 ∧
    ((generateNewPalette freshConst 3 .HEX scenarioPalette).take
        (scenarioPalette.filter (·.isPinned)).length =
        scenarioPalette.filter (·.isPinned) ∧
     (generateNewPalette freshConst 3 .HEX scenarioPalette).length = 3 ∧
     ∀ x ∈ (generateNewPalette freshConst 3 .HEX scenarioPalette).drop
        (scenarioPalette.filter (·.isPinned)).length,
       x.isPinned = false ∧ ∃ i, x.value = encodeColor .HEX (freshConst i)) :=
  ⟨by decide,
    generateNewPalette_pinned_at_front freshConst 3 .HEX scenarioPalette
      (by decide)⟩

/-- C1, counterexample: on the spec's own scenario palette, the result
of Regenerate is `[{00ff00, pinned}, fresh, fresh]` — the pinned slot
`00ff00` sits at index 0, NOT at its original index 1 as the claim
states, and index 1 holds a freshly generated unpinned value. -/
theorem generateNewPalette_scenario_counterexample :
    generateNewPalette freshConst 3 .HEX scenarioPalette =
      [⟨"00ff00", true⟩, ⟨"010203", false⟩, ⟨"010203", false⟩] ∧
    (generateNewPalette freshConst 3 .HEX scenarioPalette).get? 1 ≠
      some ⟨"00ff00", true⟩ := by
  refine ⟨by decide, ?_⟩
  decide

/-! ## Claim C8 — library entry update -/

theorem find?_first {p : SavedPaletteItem → Bool} :
    ∀ {pre : List SavedPaletteItem} {it : SavedPaletteItem}
      {post : List SavedPaletteItem},
      (∀ x ∈ pre, p x = false) → p it = true →
      (pre ++ it :: post).find? p = some it := by
  intro pre
  induction pre with
  | nil => intro it post _ hit; exact List.find?_cons_of_pos _ hit
  | cons x xs ih =>
    intro it post hpre hit
    rw [List.cons_append, List.find?_cons_of_neg _
      (by simp [hpre x (List.mem_cons_self x xs)])]
    exact ih (fun y hy => hpre y (List.mem_cons_of_mem x hy)) hit

theorem updateFirst_append {p : SavedPaletteItem → Bool}
    {f : SavedPaletteItem → SavedPaletteItem} :
    ∀ {pre : List SavedPaletteItem} {it : SavedPaletteItem}
      {post : List SavedPaletteItem},
      (∀ x ∈ pre, p x = false) → p it = true →
      updateFirst p f (pre ++ it :: post) = pre ++ f it :: post := by
  intro pre
  induction pre with
  | nil =>
    intro it post _ hit
    simp [updateFirst, hit]
  | cons x xs ih =>
    intro it post hpre hit
    rw [List.cons_append, updateFirst,
      if_neg (by simp [hpre x (List.mem_cons_self x xs)])]
    rw [ih (fun y hy => hpre y (List.mem_cons_of_mem x hy)) hit,
      List.cons_append]

/-- C8, amended: when the edited id exists, `saveEdit` replaces the
first matching entry's name only when the trimmed new name is
non-empty, and replaces its tags wholesale with the comma-split,
trimmed, empty-filtered list — WITHOUT deduplication (the original
claim's deduplication is not performed; see the counterexample).  All
other entries are untouched. -/
theorem saveEdit_found (pre post : List SavedPaletteItem)
    (it : SavedPaletteItem) (eid editName editTags : String)
    (hne : eid ≠ "") (hit : it.id = eid)
    (hpre : ∀ x ∈ pre, x.id ≠ eid) :
    saveEdit (pre ++ it :: post) (some eid) editName editTags =
      pre ++ { it with
        name := if jsTrim editName = "" then it.name else jsTrim editName,
        tags := parseTagsInput editTags } :: post := by
  have hp : (it.id == eid) = true := by simp [hit]
  have hpre2 : ∀ x ∈ pre, (x.id == eid) = false := fun x hx => by
    simp [hpre x hx]
  simp only [saveEdit]
  rw [if_neg hne, find?_first hpre2 hp]
  exact updateFirst_append hpre2 hp

theorem saveEdit_found_witness :
    ("i1" : String) ≠ "" ∧
    (⟨"i1", "old", ["t"], ["aabbcc"], false, "2024"⟩ :
      SavedPaletteItem).id = "i1" ∧
    (∀ x ∈ ([⟨"i0", "other", [], [], true, "2023"⟩] :
      List SavedPaletteItem), x.id ≠ "i1") ∧
    saveEdit ([⟨"i0", "other", [], [], true, "2023"⟩] ++
        (⟨"i1", "old", ["t"], ["aabbcc"], false, "2024"⟩ :
          SavedPaletteItem) :: []) (some "i1") " nn " "x,,y" =
      [⟨"i0", "other", [], [], true, "2023"⟩] ++
        ({ (⟨"i1", "old", ["t"], ["aabbcc"], false, "2024"⟩ :
            SavedPaletteItem) with
          name := if jsTrim " nn " = "" then "old" else jsTrim " nn ",
          tags := parseTagsInput "x,,y" }) :: [] :=
  ⟨by decide, by decide, by decide,
    saveEdit_found [⟨"i0", "other", [], [], true, "2023"⟩] []
      ⟨"i1", "old", ["t"], ["aabbcc"], false, "2024"⟩ "i1" " nn " "x,,y"
      (by decide) (by decide) (by decide)⟩

/-- C8, counterexample: the tag input `"a, a"` produces the tag list
`["a", "a"]` — `saveEdit` does not deduplicate, contradicting the
claim's "deduplicating while preserving first-occurrence order" (which
would give `["a"]`). -/
theorem saveEdit_no_dedup_counterexample :
    saveEdit [⟨"i1", "old", ["t"], ["aabbcc"], false, "2024"⟩]
        (some "i1") "newname" "a, a" =
      [⟨"i1", "newname", ["a", "a"], ["aabbcc"], false, "2024"⟩] ∧
    (saveEdit [⟨"i1", "old", ["t"], ["aabbcc"], false, "2024"⟩]
        (some "i1") "newname" "a, a").map (·.tags) ≠ [["a"]] := by
  refine ⟨by decide, ?_⟩
  decide

/-! ## Claim C7 — when parseHexToRgb succeeds -/

/-- C7, amended: `parseHexToRgb` succeeds exactly when, after removing
the first `#` occurrence (anywhere, not only leading), exactly 6
characters remain AND each of the three 2-character slices is accepted
by JavaScript `parseInt(·, 16)` — which is lenient: it tolerates
leading whitespace, a sign, a `0x` prefix, and ignores trailing
non-hex characters after at least one hex digit.  Consequently every
6-hex-digit input succeeds and every other-length input fails, but
SOME 6-character inputs with non-hex characters also succeed (see the
counterexample).  The function is total: it never throws. -/
theorem parseHexToRgb_isSome_eq (s : String) :
    (parseHexToRgb s).isSome =
      (decide ((removeFirstHash s.data).length = 6) &&
       (jsParseIntHex ((removeFirstHash s.data).take 2)).isSome &&
       (jsParseIntHex (((removeFirstHash s.data).drop 2).take 2)).isSome &&
       (jsParseIntHex (((removeFirstHash s.data).drop 4).take 2)).isSome) := by
  simp only [parseHexToRgb]
  by_cases h : (removeFirstHash s.data).length = 6
  · rw [if_neg (by simp [h])]
    simp only [h, decide_True, Bool.true_and]
    rcases h1 : jsParseIntHex ((removeFirstHash s.data).take 2) with _ | r <;>
      rcases h2 : jsParseIntHex (((removeFirstHash s.data).drop 2).take 2)
        with _ | g <;>
      rcases h3 : jsParseIntHex (((removeFirstHash s.data).drop 4).take 2)
        with _ | b <;>
      simp
  · rw [if_pos h]
    simp [h]

/-- C7, counterexample: `"ag0000"` has 6 characters, contains the
non-hex character `g`, and still parses to a triple (`parseInt("ag",
16)` reads the leading `a` and ignores the rest), where the claim
demands `null`. -/
theorem parseHexToRgb_nonhex_counterexample :
    "ag0000".data.length = 6 ∧
    "ag0000".data.all isHexDigit = false ∧
    parseHexToRgb "ag0000" = some ⟨10, 0, 0⟩ := by
  refine ⟨by decide, by decide, ?_⟩
  decide

/-! ## Claim C6 — hex round-trip -/

theorem isHexDigit_iff_ranges (c : Char) :
    isHexDigit c = true ↔
      (48 ≤ c.toNat ∧ c.toNat ≤ 57) ∨ (97 ≤ c.toNat ∧ c.toNat ≤ 102) ∨
      (65 ≤ c.toNat ∧ c.toNat ≤ 70) := by
  simp only [isHexDigit, hexDigitValue]
  split_ifs with h1 h2 h3 <;> simp <;> omega

theorem not_wsChar_of_hex {c : Char} (h : isHexDigit c = true) :
    isWsChar c = false := by
  have h1 : c ≠ ' ' := by rintro rfl; revert h; decide
  have h2 : c ≠ '\t' := by rintro rfl; revert h; decide
  have h3 : c ≠ '\n' := by rintro rfl; revert h; decide
  have h4 : c ≠ '\r' := by rintro rfl; revert h; decide
  have h5 : c ≠ '\x0b' := by rintro rfl; revert h; decide
  have h6 : c ≠ '\x0c' := by rintro rfl; revert h; decide
  simp [isWsChar, h1, h2, h3, h4, h5, h6]

theorem hexDigitValue_getD_lt (c : Char) :
    (hexDigitValue c).getD 0 < 16 := by
  simp only [hexDigitValue]
  split_ifs with h1 h2 h3 <;> simp <;> omega

/-- `parseInt` on a 2-character slice made of two hex digits: the
whitespace/sign/`0x` leniencies do not fire and the value is the usual
base-16 reading. -/
theorem jsParseIntHex_pair (a b : Char) (ha : isHexDigit a = true)
    (hb : isHexDigit b = true) :
    jsParseIntHex [a, b] =
      some ((16 * ((hexDigitValue a).getD 0) +
        (hexDigitValue b).getD 0 : ℕ) : ℤ) := by
  have hplus : a ≠ '+' := by rintro rfl; revert ha; decide
  have hminus : a ≠ '-' := by rintro rfl; revert ha; decide
  have hx : b ≠ 'x' := by rintro rfl; revert hb; decide
  have hX : b ≠ 'X' := by rintro rfl; revert hb; decide
  have hdw : List.dropWhile isWsChar [a, b] = [a, b] := by
    rw [List.dropWhile_cons]
    simp [not_wsChar_of_hex ha]
  simp only [jsParseIntHex, hdw, List.head?_cons]
  have hsign : ¬ ((some a : Option Char) = some '+' ∨
      (some a : Option Char) = some '-') := by
    simp [hplus, hminus]
  rw [if_neg hsign]
  have h0x : ¬ (List.take 2 [a, b] = ['0', 'x'] ∨
      List.take 2 [a, b] = ['0', 'X']) := by
    simp [hx, hX]
  rw [if_neg h0x]
  rw [List.takeWhile_cons, if_pos ha, List.takeWhile_cons, if_pos hb,
    List.takeWhile_nil]
  have hne : ¬ (([a, b] : List Char).isEmpty = true) := by simp
  rw [if_neg hne]
  have hneg : (decide ((some a : Option Char) = some '-')) = false := by
    simp [hminus]
  rw [hneg]
  simp [hexVal]

theorem removeFirstHash_of_no_hash :
    ∀ {l : List Char}, (∀ c ∈ l, c ≠ '#') → removeFirstHash l = l := by
  intro l
  induction l with
  | nil => intro _; rfl
  | cons c t ih =>
    intro h
    rw [removeFirstHash, if_neg (h c (List.mem_cons_self c t)),
      ih fun d hd => h d (List.mem_cons_of_mem c hd)]

theorem hex_ne_hash {c : Char} (h : isHexDigit c = true) : c ≠ '#' := by
  rintro rfl; revert h; decide

theorem toHexDigitsAux_small (fuel n : ℕ) (h : n < 16) :
    toHexDigitsAux fuel n = [hexDigitChar n] := by
  cases fuel with
  | zero => rfl
  | succ f => simp [toHexDigitsAux, h]

theorem padStart2_toHexDigits {n : ℕ} (hn : n < 256) :
    padStart2 (toHexDigits n) =
      [hexDigitChar (n / 16), hexDigitChar (n % 16)] := by
  by_cases h16 : n < 16
  · rw [toHexDigits, toHexDigitsAux_small n n h16]
    rw [Nat.div_eq_of_lt h16, Nat.mod_eq_of_lt h16]
    simp [padStart2, show hexDigitChar 0 = '0' from by decide,
      List.replicate]
  · rcases n with _ | m
    · omega
    · rw [toHexDigits, toHexDigitsAux, if_neg h16,
        toHexDigitsAux_small m ((m + 1) / 16) (by omega)]
      rfl

theorem rgbToHex_of_lt256 {r g b : ℕ} (hr : r < 256) (hg : g < 256)
    (hb : b < 256) :
    rgbToHex (r : ℤ) (g : ℤ) (b : ℤ) =
      ⟨[hexDigitChar (r / 16), hexDigitChar (r % 16),
        hexDigitChar (g / 16), hexDigitChar (g % 16),
        hexDigitChar (b / 16), hexDigitChar (b % 16)]⟩ := by
  simp only [rgbToHex, intToHexChars,
    if_neg (by omega : ¬ ((r : ℤ) < 0)),
    if_neg (by omega : ¬ ((g : ℤ) < 0)),
    if_neg (by omega : ¬ ((b : ℤ) < 0)), Int.toNat_natCast]
  rw [padStart2_toHexDigits hr, padStart2_toHexDigits hg,
    padStart2_toHexDigits hb]
  rfl

theorem hexDigitChar_toLower {c : Char} (h : isHexDigit c = true) :
    hexDigitChar ((hexDigitValue c).getD 0) = c.toLower := by
  have hranges := (isHexDigit_iff_ranges c).mp h
  simp only [hexDigitValue, Char.toLower]
  rcases hranges with h1 | h1 | h1
  · rw [if_pos h1]
    simp only [Option.getD_some]
    rw [hexDigitChar, if_pos (by omega),
      show 48 + (c.toNat - 48) = c.toNat by omega, Char.ofNat_toNat,
      if_neg (by omega)]
  · rw [if_neg (by omega), if_pos h1]
    simp only [Option.getD_some]
    rw [hexDigitChar, if_neg (by omega),
      show 87 + (c.toNat - 87) = c.toNat by omega, Char.ofNat_toNat,
      if_neg (by omega)]
  · rw [if_neg (by omega), if_neg (by omega), if_pos h1]
    simp only [Option.getD_some]
    rw [hexDigitChar, if_neg (by omega), if_pos (by omega)]
    exact congrArg Char.ofNat (by omega)

/-- C6: for every valid 6-hex-digit string, `rgbToHex` applied to the
triple produced by `parseHexToRgb` yields the input back, lower-cased
character by character (the round-trip is the identity up to letter
case), with each channel zero-padded to two hex digits. -/
theorem hex_roundtrip (h : String) (hv : isValidHex6 h = true) :
    ∃ c : Rgb, parseHexToRgb h = some c ∧
      rgbToHex c.r c.g c.b = jsToLowerCase h := by
  simp only [isValidHex6, Bool.and_eq_true, decide_eq_true_eq,
    List.all_eq_true] at hv
  obtain ⟨hlen, hhex⟩ := hv
  rcases hd : h.data with _ | ⟨c0, _ | ⟨c1, _ | ⟨c2, _ | ⟨c3, _ |
    ⟨c4, _ | ⟨c5, _ | ⟨c6, t⟩⟩⟩⟩⟩⟩⟩ <;>
    rw [hd] at hlen <;> simp at hlen
  rw [hd] at hhex
  have h0 := hhex c0 (by simp)
  have h1 := hhex c1 (by simp)
  have h2 := hhex c2 (by simp)
  have h3 := hhex c3 (by simp)
  have h4 := hhex c4 (by simp)
  have h5 := hhex c5 (by simp)
  have hrem : removeFirstHash h.data = [c0, c1, c2, c3, c4, c5] := by
    rw [hd]
    exact removeFirstHash_of_no_hash fun c hc => by
      rcases hc with _ | ⟨_, _ | ⟨_, _ | ⟨_, _ | ⟨_, _ | ⟨_, _ | ⟨_, h⟩⟩⟩⟩⟩⟩ <;>
        first
        | exact hex_ne_hash h0
        | exact hex_ne_hash h1
        | exact hex_ne_hash h2
        | exact hex_ne_hash h3
        | exact hex_ne_hash h4
        | exact hex_ne_hash h5
        | cases h
  have hv0 := hexDigitValue_getD_lt c0
  have hv1 := hexDigitValue_getD_lt c1
  have hv2 := hexDigitValue_getD_lt c2
  have hv3 := hexDigitValue_getD_lt c3
  have hv4 := hexDigitValue_getD_lt c4
  have hv5 := hexDigitValue_getD_lt c5
  refine ⟨⟨((16 * (hexDigitValue c0).getD 0 + (hexDigitValue c1).getD 0 : ℕ) : ℤ),
    ((16 * (hexDigitValue c2).getD 0 + (hexDigitValue c3).getD 0 : ℕ) : ℤ),
    ((16 * (hexDigitValue c4).getD 0 + (hexDigitValue c5).getD 0 : ℕ) : ℤ)⟩,
    ?_, ?_⟩
  · simp only [parseHexToRgb, hrem, List.length_cons, List.length_nil]
    rw [if_neg (by omega)]
    rw [show List.take 2 [c0, c1, c2, c3, c4, c5] = [c0, c1] from rfl,
      show List.take 2 (List.drop 2 [c0, c1, c2, c3, c4, c5]) = [c2, c3]
        from rfl,
      show List.take 2 (List.drop 4 [c0, c1, c2, c3, c4, c5]) = [c4, c5]
        from rfl,
      jsParseIntHex_pair c0 c1 h0 h1, jsParseIntHex_pair c2 c3 h2 h3,
      jsParseIntHex_pair c4 c5 h4 h5]
  · rw [rgbToHex_of_lt256 (by omega) (by omega) (by omega)]
    have e0 : (16 * (hexDigitValue c0).getD 0 + (hexDigitValue c1).getD 0)
        / 16 = (hexDigitValue c0).getD 0 := by omega
    have e1 : (16 * (hexDigitValue c0).getD 0 + (hexDigitValue c1).getD 0)
        % 16 = (hexDigitValue c1).getD 0 := by omega
    have e2 : (16 * (hexDigitValue c2).getD 0 + (hexDigitValue c3).getD 0)
        / 16 = (hexDigitValue c2).getD 0 := by omega
    have e3 : (16 * (hexDigitValue c2).getD 0 + (hexDigitValue c3).getD 0)
        % 16 = (hexDigitValue c3).getD 0 := by omega
    have e4 : (16 * (hexDigitValue c4).getD 0 + (hexDigitValue c5).getD 0)
        / 16 = (hexDigitValue c4).getD 0 := by omega
    have e5 : (16 * (hexDigitValue c4).getD 0 + (hexDigitValue c5).getD 0)
        % 16 = (hexDigitValue c5).getD 0 := by omega
    rw [e0, e1, e2, e3, e4, e5, hexDigitChar_toLower h0,
      hexDigitChar_toLower h1, hexDigitChar_toLower h2,
      hexDigitChar_toLower h3, hexDigitChar_toLower h4,
      hexDigitChar_toLower h5]
    simp [jsToLowerCase, hd]

theorem hex_roundtrip_witness :
    isValidHex6 "AbCdEf" = true ∧
    ∃ c : Rgb, parseHexToRgb "AbCdEf" = some c ∧
      rgbToHex c.r c.g c.b = jsToLowerCase "AbCdEf" :=
  ⟨by decide, hex_roundtrip "AbCdEf" (by decide)⟩

/-! ## Claim C2 — every generated color meets the AAA constraint -/

theorem getContrastRatio_comm (a b : ℝ) :
    getContrastRatio a b = getContrastRatio b a := by
  unfold getContrastRatio
  rw [max_comm, min_comm]

theorem getRandomInt_bounds {x : ℝ} (h0 : 0 ≤ x) (h1 : x < 1) :
    0 ≤ getRandomInt x 0 120 ∧ getRandomInt x 0 120 ≤ 120 := by
  unfold getRandomInt
  have hcast : ((120 : ℕ) : ℝ) - ((0 : ℕ) : ℝ) + 1 = 121 := by norm_num
  rw [hcast]
  constructor
  · have hge : (0 : ℤ) ≤ ⌊x * 121⌋ := Int.floor_nonneg.mpr (by nlinarith)
    omega
  · have hlt : ⌊x * 121⌋ < 121 := Int.floor_lt.mpr (by push_cast; nlinarith)
    omega

theorem getRandomAaaRgbColor_aaa (σ : ℕ → ℝ) (s : ℕ)
    (h : ∃ k, aaaTriple (candidateTriple σ s k)) :
    aaaTriple (getRandomAaaRgbColor σ s) := by
  classical
  unfold getRandomAaaRgbColor firstAaaIndex
  rw [dif_pos h]
  exact Nat.find_spec h

theorem getRandomAaaRgbColor_bounds (σ : ℕ → ℝ) (s : ℕ)
    (hr : ∀ n, 0 ≤ σ n ∧ σ n < 1) :
    0 ≤ (getRandomAaaRgbColor σ s).r ∧ (getRandomAaaRgbColor σ s).r ≤ 120 ∧
    0 ≤ (getRandomAaaRgbColor σ s).g ∧ (getRandomAaaRgbColor σ s).g ≤ 120 ∧
    0 ≤ (getRandomAaaRgbColor σ s).b ∧ (getRandomAaaRgbColor σ s).b ≤ 120 := by
  unfold getRandomAaaRgbColor candidateTriple
  exact ⟨(getRandomInt_bounds (hr _).1 (hr _).2).1,
    (getRandomInt_bounds (hr _).1 (hr _).2).2,
    (getRandomInt_bounds (hr _).1 (hr _).2).1,
    (getRandomInt_bounds (hr _).1 (hr _).2).2,
    (getRandomInt_bounds (hr _).1 (hr _).2).1,
    (getRandomInt_bounds (hr _).1 (hr _).2).2⟩

/-- C2: when the raw random stream takes values in `[0, 1)` (as
`Math.random()` does) and the rejection loop always terminates, every
color produced by `generateRandomPaletteValues` — for any requested
count, any start position and either encoding — is the encoding of a
triple whose channels lie in the integer range `[0, 120]` and whose
contrast ratio against pure white (luminance 1) is at least 7 (AAA). -/
theorem generateRandomPaletteValues_aaa (σ : ℕ → ℝ) (t : ColorCodeType)
    (len s : ℕ) (hr : ∀ n, 0 ≤ σ n ∧ σ n < 1)
    (hacc : ∀ s0 : ℕ, ∃ k, aaaTriple (candidateTriple σ s0 k)) :
    ∀ v ∈ generateRandomPaletteValues σ t len s, ∃ c : Rgb,
      v = encodeColor t c ∧
      0 ≤ c.r ∧ c.r ≤ 120 ∧ 0 ≤ c.g ∧ c.g ≤ 120 ∧ 0 ≤ c.b ∧ c.b ≤ 120 ∧
      getContrastRatio (getRelativeLuminance c.r c.g c.b) 1 ≥
        AAA_CONTRAST_RATIO := by
  induction len generalizing s with
  | zero => intro v hv; simp [generateRandomPaletteValues] at hv
  | succ n ih =>
    intro v hv
    rw [generateRandomPaletteValues] at hv
    rcases List.mem_cons.mp hv with hv | hv
    · subst hv
      obtain ⟨hr1, hr2, hg1, hg2, hb1, hb2⟩ :=
        getRandomAaaRgbColor_bounds σ s hr
      have haaa := getRandomAaaRgbColor_aaa σ s (hacc s)
      refine ⟨getRandomAaaRgbColor σ s, rfl, hr1, hr2, hg1, hg2, hb1, hb2,
        ?_⟩
      rw [getContrastRatio_comm]
      exact haaa
    · exact ih (nextPos σ s) v hv

theorem srgbChannelToLinear_zero : srgbChannelToLinear 0 = 0 := by
  simp only [srgbChannelToLinear]
  norm_num

theorem aaaTriple_zero : aaaTriple ⟨0, 0, 0⟩ := by
  unfold aaaTriple isAaaContrastWithWhite AAA_CONTRAST_RATIO
    getContrastRatio getRelativeLuminance
  push_cast
  rw [srgbChannelToLinear_zero]
  rw [show max (1 : ℝ) (0.2126 * 0 + 0.7152 * 0 + 0.0722 * 0) = 1 by
    norm_num]
  rw [show min (1 : ℝ) (0.2126 * 0 + 0.7152 * 0 + 0.0722 * 0) = 0 by
    norm_num]
  norm_num

theorem candidateTriple_zeroStream (s k : ℕ) :
    candidateTriple (fun _ => (0 : ℝ)) s k = ⟨0, 0, 0⟩ := by
  simp [candidateTriple, getRandomInt]

theorem generateRandomPaletteValues_aaa_witness :
    (∀ n : ℕ, 0 ≤ (fun _ => (0 : ℝ)) n ∧ (fun _ => (0 : ℝ)) n < 1) ∧
    (∀ s0 : ℕ, ∃ k,
      aaaTriple (candidateTriple (fun _ => (0 : ℝ)) s0 k)) ∧
    ∀ v ∈ generateRandomPaletteValues (fun _ => (0 : ℝ)) .HEX 2 0,
      ∃ c : Rgb, v = encodeColor .HEX c ∧
        0 ≤ c.r ∧ c.r ≤ 120 ∧ 0 ≤ c.g ∧ c.g ≤ 120 ∧ 0 ≤ c.b ∧ c.b ≤ 120 ∧
        getContrastRatio (getRelativeLuminance c.r c.g c.b) 1 ≥
          AAA_CONTRAST_RATIO :=
  ⟨fun _ => by norm_num,
   fun s0 => ⟨0, by rw [candidateTriple_zeroStream]; exact aaaTriple_zero⟩,
   generateRandomPaletteValues_aaa (fun _ => (0 : ℝ)) .HEX 2 0
     (fun _ => by norm_num)
     (fun s0 =>
       ⟨0, by rw [candidateTriple_zeroStream]; exact aaaTriple_zero⟩)⟩

/-- Fidelity of the abstract engine stream: reading the concrete
generator from the position of the `i`-th accepted triple coincides
with the abstract generator over the accepted-triple stream. -/
theorem generateRandomPaletteValuesFrom_succ (fresh : ℕ → Rgb)
    (start : ℕ) (t : ColorCodeType) (len : ℕ) :
    generateRandomPaletteValuesFrom fresh start t (len + 1) =
      encodeColor t (fresh start) ::
        generateRandomPaletteValuesFrom fresh (start + 1) t len := by
  simp only [generateRandomPaletteValuesFrom, List.range_succ_eq_map,
    List.map_cons, List.map_map, Nat.add_zero]
  congr 1
  refine List.map_congr_left fun j _ => ?_
  simp only [Function.comp]
  congr 2
  omega

theorem generateRandomPaletteValues_eq_from (σ : ℕ → ℝ)
    (t : ColorCodeType) :
    ∀ len i : ℕ,
      generateRandomPaletteValues σ t len (acceptedPos σ i) =
        generateRandomPaletteValuesFrom (acceptedTriple σ) i t len := by
  intro len
  induction len with
  | zero => intro i; rfl
  | succ n ih =>
    intro i
    rw [generateRandomPaletteValues, generateRandomPaletteValuesFrom_succ]
    rw [show nextPos σ (acceptedPos σ i) = acceptedPos σ (i + 1) from rfl,
      ih (i + 1)]
    rfl

/-! ## Claim C5 — the suggested accent color is the first-seen argmax -/

theorem accentStep_eq (midL : ℝ) (best : Option (String × ℝ))
    (c : PaletteColor) :
    accentStep midL best c =
      match candOf midL c with
      | none => best
      | some cand => pickBetter best cand := by
  rcases h : parseHexToRgb (normalizedHex c.value) with _ | rgb <;>
      rcases best with _ | b <;>
      simp only [accentStep, candOf, h, Option.map_none',
        Option.map_some'] <;>
    rfl

theorem foldl_accentStep_eq (midL : ℝ) :
    ∀ (cs : List PaletteColor) (acc : Option (String × ℝ)),
      cs.foldl (accentStep midL) acc =
        (cs.filterMap (candOf midL)).foldl pickBetter acc := by
  intro cs
  induction cs with
  | nil => intro acc; rfl
  | cons c t ih =>
    intro acc
    rw [List.foldl_cons, accentStep_eq]
    rcases h : candOf midL c with _ | cand
    · rw [List.filterMap_cons_none h]
      exact ih acc
    · rw [List.filterMap_cons_some h, List.foldl_cons]
      exact ih (pickBetter acc cand)

theorem foldl_pickBetter_some :
    ∀ (l : List (String × ℝ)) (a : String × ℝ),
      ∃ b, l.foldl pickBetter (some a) = some b := by
  intro l
  induction l with
  | nil => intro a; exact ⟨a, rfl⟩
  | cons x t ih =>
    intro a
    rw [List.foldl_cons]
    by_cases hx : x.2 > a.2
    · rw [show pickBetter (some a) x = if x.2 > a.2 then some x else some a
        from rfl, if_pos hx]
      exact ih x
    · rw [show pickBetter (some a) x = if x.2 > a.2 then some x else some a
        from rfl, if_neg hx]
      exact ih a

theorem foldl_pickBetter_some_spec :
    ∀ (l : List (String × ℝ)) (a b : String × ℝ),
      l.foldl pickBetter (some a) = some b →
      (b = a ∧ ∀ x ∈ l, x.2 ≤ a.2) ∨
      (∃ p q, l = p ++ b :: q ∧ a.2 < b.2 ∧ (∀ x ∈ p, x.2 < b.2) ∧
        ∀ x ∈ q, x.2 ≤ b.2) := by
  intro l
  induction l with
  | nil =>
    intro a b hb
    rw [List.foldl_nil] at hb
    left
    exact ⟨(Option.some.inj hb).symm,
      fun x hx => absurd hx (List.not_mem_nil x)⟩
  | cons x t ih =>
    intro a b hb
    rw [List.foldl_cons,
      show pickBetter (some a) x = if x.2 > a.2 then some x else some a
        from rfl] at hb
    by_cases hx : x.2 > a.2
    · rw [if_pos hx] at hb
      rcases ih x b hb with ⟨hba, hall⟩ | ⟨p, q, hsplit, hlt, hp, hq⟩
      · subst hba
        right
        exact ⟨[], t, rfl, hx,
          fun y hy => absurd hy (List.not_mem_nil y), hall⟩
      · right
        refine ⟨x :: p, q, by rw [hsplit]; rfl, lt_trans hx hlt, ?_, hq⟩
        intro y hy
        rcases List.mem_cons.mp hy with h | h
        · subst h; exact hlt
        · exact hp y h
    · rw [if_neg hx] at hb
      rcases ih a b hb with ⟨hba, hall⟩ | ⟨p, q, hsplit, hlt, hp, hq⟩
      · left
        refine ⟨hba, ?_⟩
        intro y hy
        rcases List.mem_cons.mp hy with h | h
        · subst h; exact le_of_not_lt hx
        · exact hall y h
      · right
        refine ⟨x :: p, q, by rw [hsplit]; rfl, hlt, ?_, hq⟩
        intro y hy
        rcases List.mem_cons.mp hy with h | h
        · subst h; exact lt_of_le_of_lt (le_of_not_lt hx) hlt
        · exact hp y h

theorem foldl_pickBetter_none_spec (l : List (String × ℝ))
    (b : String × ℝ) (hb : l.foldl pickBetter none = some b) :
    ∃ p q, l = p ++ b :: q ∧ (∀ x ∈ p, x.2 < b.2) ∧
      ∀ x ∈ q, x.2 ≤ b.2 := by
  cases l with
  | nil => simp [List.foldl_nil] at hb
  | cons x t =>
    rw [List.foldl_cons, show pickBetter none x = some x from rfl] at hb
    rcases foldl_pickBetter_some_spec t x b hb with
      ⟨hba, hall⟩ | ⟨p, q, hsplit, hlt, hp, hq⟩
    · subst hba
      exact ⟨[], t, rfl, fun y hy => absurd hy (List.not_mem_nil y), hall⟩
    · refine ⟨x :: p, q, by rw [hsplit]; rfl, ?_, hq⟩
      intro y hy
      rcases List.mem_cons.mp hy with h | h
      · subst h; exact hlt
      · exact hp y h

theorem foldl_pickBetter_ne_none {l : List (String × ℝ)} (hl : l ≠ []) :
    ∃ b, l.foldl pickBetter none = some b := by
  cases l with
  | nil => exact absurd rfl hl
  | cons x t =>
    rw [List.foldl_cons, show pickBetter none x = some x from rfl]
    exact foldl_pickBetter_some t x

theorem filterMap_eq_append_cons {α β : Type} {f : α → Option β} :
    ∀ {l : List α} {p : List β} {b : β} {q : List β},
      l.filterMap f = p ++ b :: q →
      ∃ l1 c l2, l = l1 ++ c :: l2 ∧ f c = some b ∧
        l1.filterMap f = p ∧ l2.filterMap f = q := by
  intro l
  induction l with
  | nil => intro p b q h; simp at h
  | cons x t ih =>
    intro p b q h
    rcases hx : f x with _ | v
    · rw [List.filterMap_cons_none hx] at h
      obtain ⟨l1, c, l2, h1, h2, h3, h4⟩ := ih h
      exact ⟨x :: l1, c, l2, by rw [h1]; rfl, h2,
        by rw [List.filterMap_cons_none hx, h3], h4⟩
    · rw [List.filterMap_cons_some hx] at h
      cases p with
      | nil =>
        rw [List.nil_append] at h
        injection h with hv ht
        subst hv
        exact ⟨[], x, t, rfl, hx, rfl, ht⟩
      | cons p0 ps =>
        rw [List.cons_append] at h
        injection h with hv ht
        subst hv
        obtain ⟨l1, c, l2, h1, h2, h3, h4⟩ := ih ht
        exact ⟨x :: l1, c, l2, by rw [h1]; rfl, h2,
          by rw [List.filterMap_cons_some hx, h3], h4⟩

/-- C5: `accentColor` (suggestAccent) returns `none` for an empty
palette and when the reference slot (index `floor(length / 2)`) fails
to normalize to RGB; otherwise it returns the displayed value (HEX with
`#` marker) and ratio of the slot achieving the globally maximum
contrast ratio against the reference luminance over all normalizable
slots, with the first-seen slot winning on exact ties (every earlier
normalizable slot has a strictly smaller ratio). -/
theorem accentColor_spec :
    accentColor [] = none ∧
    (∀ (colors : List PaletteColor) (mid : PaletteColor),
      colors.get? (colors.length / 2) = some mid →
      parseHexToRgb (normalizedHex mid.value) = none →
      accentColor colors = none) ∧
    (∀ (colors : List PaletteColor) (mid : PaletteColor) (midRgb : Rgb),
      colors.get? (colors.length / 2) = some mid →
      parseHexToRgb (normalizedHex mid.value) = some midRgb →
      ∃ (winner : PaletteColor) (ratio : ℝ)
        (p q : List PaletteColor),
        colors = p ++ winner :: q ∧
        accentColor colors =
          some ("#" ++ normalizedHex winner.value, ratio) ∧
        candOf (getRelativeLuminance midRgb.r midRgb.g midRgb.b) winner =
          some ("#" ++ normalizedHex winner.value, ratio) ∧
        (∀ x ∈ p, ∀ s r,
          candOf (getRelativeLuminance midRgb.r midRgb.g midRgb.b) x =
            some (s, r) → r < ratio) ∧
        (∀ x ∈ colors, ∀ s r,
          candOf (getRelativeLuminance midRgb.r midRgb.g midRgb.b) x =
            some (s, r) → r ≤ ratio)) := by
  refine ⟨rfl, ?_, ?_⟩
  · intro colors mid hmid hparse
    have hnz : ¬ colors.length = 0 := by
      obtain ⟨hlt, -⟩ := List.get?_eq_some.mp hmid
      omega
    simp only [accentColor, if_neg hnz, hmid, hparse]
  · intro colors mid midRgb hmid hparse
    have hnz : ¬ colors.length = 0 := by
      obtain ⟨hlt, -⟩ := List.get?_eq_some.mp hmid
      omega
    set midL := getRelativeLuminance midRgb.r midRgb.g midRgb.b with hmidL
    have hacc : accentColor colors =
        (colors.filterMap (candOf midL)).foldl pickBetter none := by
      simp only [accentColor, if_neg hnz, hmid, hparse]
      exact foldl_accentStep_eq midL colors none
    have hmidmem : mid ∈ colors := List.get?_mem hmid
    have hmidcand : candOf midL mid =
        some ("#" ++ normalizedHex mid.value,
          getContrastRatio midL
            (getRelativeLuminance midRgb.r midRgb.g midRgb.b)) := by
      simp only [candOf, hparse, Option.map_some']
    have hne : colors.filterMap (candOf midL) ≠ [] :=
      List.ne_nil_of_mem (List.mem_filterMap.mpr ⟨mid, hmidmem, hmidcand⟩)
    obtain ⟨b, hb⟩ := foldl_pickBetter_ne_none hne
    obtain ⟨p0, q0, hsplit0, hp0, hq0⟩ :=
      foldl_pickBetter_none_spec _ b hb
    obtain ⟨l1, c, l2, h1, h2, h3, h4⟩ := filterMap_eq_append_cons hsplit0
    obtain ⟨rgbc, hparsec, hbeq⟩ := Option.map_eq_some'.mp h2
    refine ⟨c, b.2, l1, l2, h1, ?_, ?_, ?_, ?_⟩
    · rw [hacc, hb, ← hbeq]
    · rw [h2, ← hbeq]
    · intro x hx s r hxc
      have hmem : (s, r) ∈ l1.filterMap (candOf midL) :=
        List.mem_filterMap.mpr ⟨x, hx, hxc⟩
      rw [h3] at hmem
      exact hp0 _ hmem
    · intro x hx s r hxc
      have hmem : (s, r) ∈ colors.filterMap (candOf midL) :=
        List.mem_filterMap.mpr ⟨x, hx, hxc⟩
      rw [hsplit0] at hmem
      rcases List.mem_append.mp hmem with hm | hm
      · exact le_of_lt (hp0 _ hm)
      · rcases List.mem_cons.mp hm with hm | hm
        · exact le_of_eq (congrArg Prod.snd hm)
        · exact hq0 _ hm

theorem accentColor_spec_witness :
    ([⟨"000000", false⟩, ⟨"ffffff", false⟩, ⟨"000000", false⟩] :
        List PaletteColor).get?
      (([⟨"000000", false⟩, ⟨"ffffff", false⟩, ⟨"000000", false⟩] :
        List PaletteColor).length / 2) = some ⟨"ffffff", false⟩ ∧
    parseHexToRgb (normalizedHex "ffffff") = some ⟨255, 255, 255⟩ ∧
    ∃ (winner : PaletteColor) (ratio : ℝ)
      (p q : List PaletteColor),
      ([⟨"000000", false⟩, ⟨"ffffff", false⟩, ⟨"000000", false⟩] :
        List PaletteColor) = p ++ winner :: q ∧
      accentColor [⟨"000000", false⟩, ⟨"ffffff", false⟩, ⟨"000000", false⟩] =
        some ("#" ++ normalizedHex winner.value, ratio) ∧
      candOf (getRelativeLuminance (255 : ℤ) (255 : ℤ) (255 : ℤ)) winner =
        some ("#" ++ normalizedHex winner.value, ratio) ∧
      (∀ x ∈ p, ∀ s r,
        candOf (getRelativeLuminance (255 : ℤ) (255 : ℤ) (255 : ℤ)) x =
          some (s, r) → r < ratio) ∧
      (∀ x ∈ ([⟨"000000", false⟩, ⟨"ffffff", false⟩, ⟨"000000", false⟩] :
          List PaletteColor), ∀ s r,
        candOf (getRelativeLuminance (255 : ℤ) (255 : ℤ) (255 : ℤ)) x =
          some (s, r) → r ≤ ratio) :=
  ⟨by decide, by decide,
    accentColor_spec.2.2
      [⟨"000000", false⟩, ⟨"ffffff", false⟩, ⟨"000000", false⟩]
      ⟨"ffffff", false⟩ ⟨255, 255, 255⟩ (by decide) (by decide)⟩

end PaletteApp
